import Mathlib

/-!
Verification of the SV39 address-translation core of a teaching OS kernel.

The development shallowly embeds the two source modules:
* mm/address.rs : fixed-width address and page-number types with masking,
  canonical sign-extension, page rounding and alignment checks;
* mm/page_table.rs : the page-table-entry codec and the three-level page
  table with map / unmap / translate.

Machine integers are modelled as Nat with explicit reduction modulo 2^64
where the Rust code relies on usize wraparound.  Panicking paths (assert,
unwrap) are modelled with Option: none is a fatal halt.
-/

namespace SV39

/-- Modelled from the spec: the configuration module (not among the sources
here) defines 4 KiB pages, i.e. PAGE_SIZE = 4096. -/
def PAGE_SIZE : Nat := 4096

/-- Modelled from the spec: PAGE_SIZE_BITS = 12 offset bits per page. -/
def PAGE_SIZE_BITS : Nat := 12

/-- Modulus of usize arithmetic: the target is RV64, so usize is 64 bits. -/
def USIZE : Nat := 2 ^ 64

/-- Physical addresses are 56 bits wide in SV39. -/
def PA_WIDTH_SV39 : Nat := 56

/-- Virtual addresses are 39 bits wide in SV39. -/
def VA_WIDTH_SV39 : Nat := 39

/-- Physical page numbers: 56 - 12 = 44 bits. -/
def PPN_WIDTH_SV39 : Nat := PA_WIDTH_SV39 - PAGE_SIZE_BITS

/-- Virtual page numbers: 39 - 12 = 27 bits. -/
def VPN_WIDTH_SV39 : Nat := VA_WIDTH_SV39 - PAGE_SIZE_BITS

/-- Bitwise complement of a 64-bit word: on values below 2^64 the Rust
operator produces exactly 2^64 - 1 - x. -/
def usize_not (x : Nat) : Nat := (USIZE - 1) - x

/-- Wrapping usize addition (release-mode two's-complement wraparound). -/
def wrapping_add (a b : Nat) : Nat := (a + b) % USIZE

/-- Wrapping usize subtraction (release-mode two's-complement wraparound). -/
def wrapping_sub (a b : Nat) : Nat := (a + (USIZE - b % USIZE)) % USIZE

/-- Embeds impl From of usize for PhysAddr: keep only the low 56 bits. -/
def physAddr_from_usize (v : Nat) : Nat := v &&& ((1 <<< PA_WIDTH_SV39) - 1)

/-- Embeds impl From of usize for PhysPageNum: keep only the low 44 bits. -/
def physPageNum_from_usize (v : Nat) : Nat := v &&& ((1 <<< PPN_WIDTH_SV39) - 1)

/-- Embeds impl From of usize for VirtAddr: keep only the low 39 bits. -/
def virtAddr_from_usize (v : Nat) : Nat := v &&& ((1 <<< VA_WIDTH_SV39) - 1)

/-- Embeds impl From of usize for VirtPageNum: keep only the low 27 bits. -/
def virtPageNum_from_usize (v : Nat) : Nat := v &&& ((1 <<< VPN_WIDTH_SV39) - 1)

/-- Embeds impl From of VirtAddr for usize: sign-extend from bit 38 when it
is set, otherwise return the stored value unchanged. -/
def usize_from_virtAddr (v : Nat) : Nat :=
  if v ≥ 1 <<< (VA_WIDTH_SV39 - 1) then v ||| usize_not ((1 <<< VA_WIDTH_SV39) - 1)
  else v

/-- Embeds VirtAddr::floor. -/
def VirtAddr.floor (v : Nat) : Nat := v / PAGE_SIZE

/-- Embeds VirtAddr::ceil, with the usize wraparound the source relies on
for the value 0. -/
def VirtAddr.ceil (v : Nat) : Nat :=
  wrapping_add (wrapping_sub v 1) PAGE_SIZE / PAGE_SIZE

/-- Embeds VirtAddr::page_offset. -/
def VirtAddr.page_offset (v : Nat) : Nat := v &&& (PAGE_SIZE - 1)

/-- Embeds VirtAddr::aligned. -/
def VirtAddr.aligned (v : Nat) : Bool := VirtAddr.page_offset v == 0

/-- Embeds PhysAddr::floor. -/
def PhysAddr.floor (v : Nat) : Nat := v / PAGE_SIZE

/-- Embeds PhysAddr::ceil, with the usize wraparound the source relies on
for the value 0. -/
def PhysAddr.ceil (v : Nat) : Nat :=
  wrapping_add (wrapping_sub v 1) PAGE_SIZE / PAGE_SIZE

/-- Embeds PhysAddr::page_offset. -/
def PhysAddr.page_offset (v : Nat) : Nat := v &&& (PAGE_SIZE - 1)

/-- Embeds PhysAddr::aligned. -/
def PhysAddr.aligned (v : Nat) : Bool := PhysAddr.page_offset v == 0

/-- Embeds impl From of VirtAddr for VirtPageNum: asserts page alignment
(none models the assertion failure), then floors. -/
def virtPageNum_from_virtAddr (v : Nat) : Option Nat :=
  if VirtAddr.page_offset v = 0 then some (VirtAddr.floor v) else none

/-- Embeds impl From of VirtPageNum for VirtAddr: shift left by 12. -/
def virtAddr_from_virtPageNum (v : Nat) : Nat := (v <<< PAGE_SIZE_BITS) % USIZE

/-- Embeds impl From of PhysAddr for PhysPageNum: asserts page alignment
(none models the assertion failure), then floors. -/
def physPageNum_from_physAddr (v : Nat) : Option Nat :=
  if PhysAddr.page_offset v = 0 then some (PhysAddr.floor v) else none

/-- Embeds impl From of PhysPageNum for PhysAddr: shift left by 12. -/
def physAddr_from_physPageNum (v : Nat) : Nat := (v <<< PAGE_SIZE_BITS) % USIZE

/-- PTEFlags::V. -/
def PTEFlags.V : Nat := 1 <<< 0

/-- PTEFlags::R. -/
def PTEFlags.R : Nat := 1 <<< 1

/-- PTEFlags::W. -/
def PTEFlags.W : Nat := 1 <<< 2

/-- PTEFlags::X. -/
def PTEFlags.X : Nat := 1 <<< 3

/-- PTEFlags::U. -/
def PTEFlags.U : Nat := 1 <<< 4

/-- PTEFlags::G. -/
def PTEFlags.G : Nat := 1 <<< 5

/-- PTEFlags::A. -/
def PTEFlags.A : Nat := 1 <<< 6

/-- PTEFlags::D. -/
def PTEFlags.D : Nat := 1 <<< 7

/-- Union of the eight defined flag bits (what bitflags calls all). -/
def PTEFlags.all : Nat :=
  PTEFlags.V ||| PTEFlags.R ||| PTEFlags.W ||| PTEFlags.X |||
  PTEFlags.U ||| PTEFlags.G ||| PTEFlags.A ||| PTEFlags.D

/-- PTEFlags::empty. -/
def PTEFlags.empty : Nat := 0

/-- Embeds bitflags from_bits on a u8 value: some iff every set bit is one
of the eight defined flag bits. -/
def PTEFlags.from_bits (b : Nat) : Option Nat :=
  if b &&& PTEFlags.all = b then some b else none

/-- Embeds PageTableEntry::new: bits = ppn.0 shifted left 10, or-ed with the
flag byte; the shift wraps at the usize width. -/
def PageTableEntry.new (ppn flags : Nat) : Nat := ((ppn <<< 10) % USIZE) ||| flags

/-- Embeds PageTableEntry::empty: the all-zero word. -/
def PageTableEntry.empty : Nat := 0

/-- Embeds PageTableEntry::ppn: bits 10 to 53. -/
def PageTableEntry.ppn (bits : Nat) : Nat := (bits >>> 10) &&& ((1 <<< 44) - 1)

/-- Embeds PageTableEntry::flags after the successful unwrap: the low byte
(the cast of bits to u8). -/
def PageTableEntry.flags (bits : Nat) : Nat := bits % 256

/-- Embeds PageTableEntry::flags before the unwrap: from_bits applied to the
low byte, which the source immediately unwraps. -/
def PageTableEntry.flags_checked (bits : Nat) : Option Nat :=
  PTEFlags.from_bits (bits % 256)

/-- Embeds PageTableEntry::is_valid: the V bit of the flag byte is set. -/
def PageTableEntry.is_valid (bits : Nat) : Bool :=
  decide (PageTableEntry.flags bits &&& PTEFlags.V ≠ PTEFlags.empty)

/-- Modelled from the spec: physical memory as seen through get_pte_array,
page-table node by page-table node (frame ppn, slot index, entry word), plus
the frame-allocator counter handing out fresh frame numbers. -/
structure MState where
  mem : Nat → Nat → Nat
  next : Nat

/-- Embeds struct PageTable: the root node ppn and the list of owned frames
(a FrameTracker is identified by its ppn). -/
structure PageTable where
  root_ppn : Nat
  frames : List Nat
deriving DecidableEq

/-- Modelled from the spec: frame_alloc returns an owned, zeroed frame; the
allocator is unbounded here, so the fatal exhaustion path never fires. -/
def frame_alloc (s : MState) : Nat × MState :=
  (s.next,
   { mem := fun p j => if p = s.next then 0 else s.mem p j, next := s.next + 1 })

/-- Writes one page-table entry in physical memory (the effect of assigning
through the mutable reference the walks hand out). -/
def mem_write (s : MState) (p i v : Nat) : MState :=
  { s with mem := fun q j => if q = p ∧ j = i then v else s.mem q j }

/-- Embeds PageTable::new: allocate the root frame and own it. -/
def PageTable.new (s : MState) : PageTable × MState :=
  let fs := frame_alloc s
  ({ root_ppn := fs.1, frames := [fs.1] }, fs.2)

/-- Modelled from the spec: VirtPageNum::indexes splits the 27-bit vpn into
three 9-bit fields, most significant first (bits 26-18, 17-9, 8-0). -/
def VirtPageNum.indexes (vpn : Nat) : List Nat :=
  [(vpn >>> 18) &&& 511, (vpn >>> 9) &&& 511, vpn &&& 511]

/-- Embeds the loop body of PageTable::find_pte_create: at level 2 return
the slot address; otherwise create a zeroed child node when the entry is
invalid, and descend through the (possibly just written) entry. -/
def find_pte_create_aux : Nat → List Nat → Nat → PageTable → MState →
    Option (Nat × Nat) × PageTable × MState
  | _, [], _, pt, s => (none, pt, s)
  | i, idx :: rest, ppn, pt, s =>
    if i = 2 then (some (ppn, idx), pt, s)
    else
      if PageTableEntry.is_valid (s.mem ppn idx) then
        find_pte_create_aux (i + 1) rest (PageTableEntry.ppn (s.mem ppn idx)) pt s
      else
        let fs := frame_alloc s
        let newpte := PageTableEntry.new fs.1 PTEFlags.V
        find_pte_create_aux (i + 1) rest (PageTableEntry.ppn newpte)
          { pt with frames := pt.frames ++ [fs.1] }
          (mem_write fs.2 ppn idx newpte)

/-- Embeds PageTable::find_pte_create. -/
def PageTable.find_pte_create (pt : PageTable) (s : MState) (vpn : Nat) :
    Option (Nat × Nat) × PageTable × MState :=
  find_pte_create_aux 0 (VirtPageNum.indexes vpn) pt.root_ppn pt s

/-- Embeds the loop body of PageTable::find_pte: the read-only walk that
returns none as soon as an intermediate entry is invalid. -/
def find_pte_aux : Nat → List Nat → Nat → MState → Option (Nat × Nat)
  | _, [], _, _ => none
  | i, idx :: rest, ppn, s =>
    if i = 2 then some (ppn, idx)
    else
      if PageTableEntry.is_valid (s.mem ppn idx) then
        find_pte_aux (i + 1) rest (PageTableEntry.ppn (s.mem ppn idx)) s
      else none

/-- Embeds PageTable::find_pte. -/
def PageTable.find_pte (pt : PageTable) (s : MState) (vpn : Nat) :
    Option (Nat × Nat) :=
  find_pte_aux 0 (VirtPageNum.indexes vpn) pt.root_ppn s

/-- Embeds PageTable::map: unwrap of the create-walk and the assert that the
leaf is not yet valid are the two fatal paths (none); on success the leaf
receives new(ppn, flags or V). -/
def PageTable.map (pt : PageTable) (s : MState) (vpn ppn flags : Nat) :
    Option (PageTable × MState) :=
  match pt.find_pte_create s vpn with
  | (none, _, _) => none
  | (some pi, pt2, s2) =>
    if PageTableEntry.is_valid (s2.mem pi.1 pi.2) then none
    else some (pt2, mem_write s2 pi.1 pi.2
      (PageTableEntry.new ppn (flags ||| PTEFlags.V)))

/-- Embeds PageTable::unmap: unwrap of the read-only walk and the assert
that the leaf is valid are the two fatal paths (none); on success the leaf
is overwritten with the empty sentinel. -/
def PageTable.unmap (pt : PageTable) (s : MState) (vpn : Nat) :
    Option (PageTable × MState) :=
  match pt.find_pte s vpn with
  | none => none
  | some pi =>
    if PageTableEntry.is_valid (s.mem pi.1 pi.2) then
      some (pt, mem_write s pi.1 pi.2 PageTableEntry.empty)
    else none

/-- Embeds PageTable::from_token: a non-owning view rooted at the low 44
bits of the satp word. -/
def PageTable.from_token (satp : Nat) : PageTable :=
  { root_ppn := satp &&& ((1 <<< 44) - 1), frames := [] }

/-- Embeds PageTable::translate: copy of the leaf slot the read-only walk
reaches, if any. -/
def PageTable.translate (pt : PageTable) (s : MState) (vpn : Nat) : Option Nat :=
  (pt.find_pte s vpn).map (fun pi => s.mem pi.1 pi.2)

/-- Claim-side counter: how many invalid intermediate entries the create
walk meets (each one costs exactly one fresh frame); it replays the walk
without touching the owned-frame list. -/
def countAlloc : Nat → List Nat → Nat → MState → Nat
  | _, [], _, _ => 0
  | i, idx :: rest, ppn, s =>
    if i = 2 then 0
    else
      if PageTableEntry.is_valid (s.mem ppn idx) then
        countAlloc (i + 1) rest (PageTableEntry.ppn (s.mem ppn idx)) s
      else
        let fs := frame_alloc s
        let newpte := PageTableEntry.new fs.1 PTEFlags.V
        1 + countAlloc (i + 1) rest (PageTableEntry.ppn newpte)
          (mem_write fs.2 ppn idx newpte)

/-- Claim-side trace alphabet: the two mutators a table built by new() may
see. -/
inductive PTOp where
  | mapOp (vpn ppn flags : Nat)
  | unmapOp (vpn : Nat)

/-- Applies one mutator. -/
def applyOp (pt : PageTable) (s : MState) : PTOp → Option (PageTable × MState)
  | PTOp.mapOp vpn ppn flags => pt.map s vpn ppn flags
  | PTOp.unmapOp vpn => pt.unmap s vpn

/-- Claim-side: intermediate frames one operation allocates. -/
def countOp (pt : PageTable) (s : MState) : PTOp → Nat
  | PTOp.mapOp vpn _ _ => countAlloc 0 (VirtPageNum.indexes vpn) pt.root_ppn s
  | PTOp.unmapOp _ => 0

/-- Runs a trace of mutators, accumulating how many intermediate nodes were
allocated; none as soon as one operation halts fatally. -/
def runOpsFrom (pt : PageTable) (s : MState) (acc : Nat) :
    List PTOp → Option (PageTable × MState × Nat)
  | [] => some (pt, s, acc)
  | op :: rest =>
    match applyOp pt s op with
    | none => none
    | some ps => runOpsFrom ps.1 ps.2 (acc + countOp pt s op) rest

/-- Runs a trace against a freshly built table. -/
def runOps (s0 : MState) (ops : List PTOp) : Option (PageTable × MState × Nat) :=
  runOpsFrom (PageTable.new s0).1 (PageTable.new s0).2 0 ops

/-- Concrete three-level structure used by the evaluation witnesses: root
frame 2 points to node 3, node 3 points to node 4, and slot 0 of node 4 maps
vpn 0 to ppn 7 readable. -/
def demoMem : Nat → Nat → Nat := fun p i =>
  if p = 2 ∧ i = 0 then PageTableEntry.new 3 PTEFlags.V
  else if p = 3 ∧ i = 0 then PageTableEntry.new 4 PTEFlags.V
  else if p = 4 ∧ i = 0 then PageTableEntry.new 7 (PTEFlags.R ||| PTEFlags.V)
  else 0

/-- Machine state of the witness scenario. -/
def demoState : MState := { mem := demoMem, next := 10 }

/-- Witness view of the structure in demoMem, via from_token. -/
def demoPT : PageTable := PageTable.from_token 2

/-- All-zero machine state the witness scenarios start from. -/
def initState : MState := { mem := fun _ _ => 0, next := 0 }

theorem one_shl (k : Nat) : (1 : Nat) <<< k = 2 ^ k := by
  rw [Nat.shiftLeft_eq, one_mul]

theorem and_mask_eq_mod (x k : Nat) : x &&& (2 ^ k - 1) = x % 2 ^ k :=
  Nat.and_pow_two_sub_one_eq_mod x k

theorem mask_lt (w k : Nat) : w % 2 ^ k < 2 ^ k :=
  Nat.mod_lt _ (Nat.pos_pow_of_pos k (by norm_num))

theorem pte_new_closed (p fl : Nat) (hp : p < 2 ^ 54) (hfl : fl < 2 ^ 10) :
    PageTableEntry.new p fl = p * 2 ^ 10 + fl := by
  unfold PageTableEntry.new
  rw [Nat.shiftLeft_eq]
  have h1 : p * 2 ^ 10 < 2 ^ 64 := by omega
  rw [show USIZE = 2 ^ 64 from rfl, Nat.mod_eq_of_lt h1]
  have hor := Nat.mul_add_lt_is_or (b := fl) (i := 10) hfl p
  rw [Nat.mul_comm p (2 ^ 10)]
  exact hor.symm

theorem pte_ppn_new (p fl : Nat) (hp : p < 2 ^ 44) (hfl : fl < 2 ^ 10) :
    PageTableEntry.ppn (PageTableEntry.new p fl) = p := by
  rw [pte_new_closed p fl (lt_trans hp (by norm_num)) hfl]
  unfold PageTableEntry.ppn
  rw [Nat.shiftRight_eq_div_pow, one_shl, and_mask_eq_mod]
  have hdiv : (p * 2 ^ 10 + fl) / 2 ^ 10 = p := by omega
  rw [hdiv, Nat.mod_eq_of_lt hp]

theorem pte_flags_new (p fl : Nat) (hfl : fl < 2 ^ 8) :
    PageTableEntry.flags (PageTableEntry.new p fl) = fl := by
  unfold PageTableEntry.new PageTableEntry.flags
  rw [Nat.shiftLeft_eq, show USIZE = 2 ^ 64 from rfl]
  set x := p * 2 ^ 10 % 2 ^ 64 with hx
  have hx0 : x % 2 ^ 10 = 0 := by omega
  have hexp : 2 ^ 10 * (x / 2 ^ 10) = x := by omega
  have hor := Nat.mul_add_lt_is_or (b := fl) (i := 10)
    (lt_trans hfl (by norm_num)) (x / 2 ^ 10)
  rw [hexp] at hor
  omega

theorem pte_is_valid_iff (bits : Nat) :
    PageTableEntry.is_valid bits = decide (bits % 2 = 1) := by
  unfold PageTableEntry.is_valid PageTableEntry.flags PTEFlags.V PTEFlags.empty
  have h1 : (bits % 256) &&& 1 <<< 0 = bits % 2 := by
    rw [show (1 : Nat) <<< 0 = 1 from rfl, Nat.and_one_is_mod]
    omega
  rw [h1]
  rcases Nat.mod_two_eq_zero_or_one bits with h | h <;> simp [h]

/-- C4: for every PhysPageNum below 2^44 and every combination of the eight
flag bits, PageTableEntry::new round-trips through ppn() and flags(). -/
theorem C4_entry_roundtrip (ppn f : Nat) (hppn : ppn < 2 ^ 44) (hf : f < 2 ^ 8) :
    PageTableEntry.ppn (PageTableEntry.new ppn f) = ppn ∧
    PageTableEntry.flags (PageTableEntry.new ppn f) = f :=
  ⟨pte_ppn_new ppn f hppn (lt_trans hf (by norm_num)),
   pte_flags_new ppn f hf⟩

/-- Witness for C4 at ppn = 12345678901, f = 0xa7. -/
theorem C4_entry_roundtrip_witness :
    12345678901 < 2 ^ 44 ∧ 167 < 2 ^ 8 ∧
    PageTableEntry.ppn (PageTableEntry.new 12345678901 167) = 12345678901 ∧
    PageTableEntry.flags (PageTableEntry.new 12345678901 167) = 167 :=
  ⟨by norm_num, by norm_num,
   (C4_entry_roundtrip 12345678901 167 (by norm_num) (by norm_num)).1,
   (C4_entry_roundtrip 12345678901 167 (by norm_num) (by norm_num)).2⟩

/-- C5: widening a stored VirtAddr value to usize sign-extends: when bit 38
is set, the result has all bits 39..63 set to 1 and keeps the low 39 bits
(arithmetically, it adds 2^64 - 2^39); when bit 38 is clear, the value is
returned unchanged. -/
theorem C5_canonical_widening (v : Nat) (hv : v < 2 ^ 39) :
    (2 ^ 38 ≤ v →
      usize_from_virtAddr v = v + (2 ^ 64 - 2 ^ 39) ∧
      usize_from_virtAddr v % 2 ^ 39 = v ∧
      usize_from_virtAddr v / 2 ^ 39 = 2 ^ 25 - 1) ∧
    (v < 2 ^ 38 → usize_from_virtAddr v = v) := by
  unfold usize_from_virtAddr usize_not VA_WIDTH_SV39 USIZE
  have hsh1 : (1 : Nat) <<< (39 - 1) = 2 ^ 38 := by
    rw [Nat.shiftLeft_eq, one_mul]
  have hsh2 : (1 : Nat) <<< 39 = 2 ^ 39 := by
    rw [Nat.shiftLeft_eq, one_mul]
  rw [hsh1, hsh2]
  have hmask : 2 ^ 64 - 1 - (2 ^ 39 - 1) = 2 ^ 39 * (2 ^ 25 - 1) := by norm_num
  constructor
  · intro hge
    rw [if_pos hge, hmask]
    have hor := Nat.mul_add_lt_is_or (b := v) (i := 39) hv (2 ^ 25 - 1)
    rw [Nat.or_comm] at hor
    rw [← hor]
    omega
  · intro hlt
    rw [if_neg (by omega)]

/-- Witness for C5 at v = 2^38 + 5 (bit 38 set) packaged with the bound. -/
theorem C5_canonical_widening_witness :
    2 ^ 38 + 5 < 2 ^ 39 ∧ 2 ^ 38 ≤ 2 ^ 38 + 5 ∧
    usize_from_virtAddr (2 ^ 38 + 5) = 2 ^ 38 + 5 + (2 ^ 64 - 2 ^ 39) :=
  ⟨by norm_num, by norm_num,
   ((C5_canonical_widening (2 ^ 38 + 5) (by norm_num)).1 (by norm_num)).1⟩

/-- C6: on both address types, ceil computes the wraparound expression
(value - 1 + 4096) / 4096; for 1 <= v in range it is the least page count n
with n * 4096 >= v (expressed by the two bracketing inequalities), and at
v = 0 the subtraction wraps and the result is 0 = floor(0) with no
precondition failure. -/
theorem C6_ceil_wraparound (v : Nat) (h1 : 1 ≤ v) (h56 : v < 2 ^ 56) :
    (v ≤ PAGE_SIZE * PhysAddr.ceil v ∧ PAGE_SIZE * PhysAddr.ceil v < v + PAGE_SIZE) ∧
    (v ≤ PAGE_SIZE * VirtAddr.ceil v ∧ PAGE_SIZE * VirtAddr.ceil v < v + PAGE_SIZE) ∧
    PhysAddr.ceil 0 = 0 ∧ VirtAddr.ceil 0 = 0 ∧
    PhysAddr.ceil 0 = PhysAddr.floor 0 ∧ VirtAddr.ceil 0 = VirtAddr.floor 0 := by
  unfold PhysAddr.ceil VirtAddr.ceil PhysAddr.floor VirtAddr.floor
    wrapping_add wrapping_sub PAGE_SIZE USIZE
  norm_num
  omega

/-- Witness for C6 at v = 4097: ceil is 2 and the bracketing holds. -/
theorem C6_ceil_wraparound_witness :
    1 ≤ 4097 ∧ 4097 < 2 ^ 56 ∧ PhysAddr.ceil 4097 = 2 ∧
    (4097 ≤ PAGE_SIZE * PhysAddr.ceil 4097 ∧
     PAGE_SIZE * PhysAddr.ceil 4097 < 4097 + PAGE_SIZE) :=
  ⟨by norm_num, by norm_num, by decide,
   (C6_ceil_wraparound 4097 (by norm_num) (by norm_num)).1⟩

/-- C7: every raw-word constructor masks to the declared width (56, 44, 27,
39 bits), totally and with no error path. -/
theorem C7_width_masking (w : Nat) :
    physAddr_from_usize w = w % 2 ^ 56 ∧ physAddr_from_usize w < 2 ^ 56 ∧
    physPageNum_from_usize w = w % 2 ^ 44 ∧ physPageNum_from_usize w < 2 ^ 44 ∧
    virtPageNum_from_usize w = w % 2 ^ 27 ∧ virtPageNum_from_usize w < 2 ^ 27 ∧
    virtAddr_from_usize w = w % 2 ^ 39 ∧ virtAddr_from_usize w < 2 ^ 39 := by
  have e56 : physAddr_from_usize w = w % 2 ^ 56 := by
    show w &&& ((1 <<< 56) - 1) = w % 2 ^ 56
    rw [one_shl, and_mask_eq_mod]
  have e44 : physPageNum_from_usize w = w % 2 ^ 44 := by
    show w &&& ((1 <<< 44) - 1) = w % 2 ^ 44
    rw [one_shl, and_mask_eq_mod]
  have e27 : virtPageNum_from_usize w = w % 2 ^ 27 := by
    show w &&& ((1 <<< 27) - 1) = w % 2 ^ 27
    rw [one_shl, and_mask_eq_mod]
  have e39 : virtAddr_from_usize w = w % 2 ^ 39 := by
    show w &&& ((1 <<< 39) - 1) = w % 2 ^ 39
    rw [one_shl, and_mask_eq_mod]
  exact ⟨e56, e56 ▸ mask_lt w 56, e44, e44 ▸ mask_lt w 44,
    e27, e27 ▸ mask_lt w 27, e39, e39 ▸ mask_lt w 39⟩

/-- C8: for every raw address value, address-to-page-number conversion
fails exactly on misaligned input (nonzero low 12 bits) and otherwise
shifts right by 12; page-number-to-address never fails, and on every page
number within the type width (27 bits virtual, 44 bits physical) it
returns the value shifted left by 12. -/
theorem C8_alignment_conversions (v : Nat) :
    (virtPageNum_from_virtAddr v = none ↔ v % 4096 ≠ 0) ∧
    (v % 4096 = 0 → virtPageNum_from_virtAddr v = some (v / 4096)) ∧
    (physPageNum_from_physAddr v = none ↔ v % 4096 ≠ 0) ∧
    (v % 4096 = 0 → physPageNum_from_physAddr v = some (v / 4096)) ∧
    (v < 2 ^ 27 → virtAddr_from_virtPageNum v = v * 4096) ∧
    (v < 2 ^ 44 → physAddr_from_physPageNum v = v * 4096) := by
  unfold virtPageNum_from_virtAddr physPageNum_from_physAddr
    virtAddr_from_virtPageNum physAddr_from_physPageNum
    VirtAddr.page_offset PhysAddr.page_offset VirtAddr.floor PhysAddr.floor
    PAGE_SIZE PAGE_SIZE_BITS USIZE
  have hoff : v &&& (4096 - 1) = v % 4096 := by
    have h := and_mask_eq_mod v 12
    norm_num at h
    exact h
  have hsh : v <<< 12 = v * 4096 := by
    rw [Nat.shiftLeft_eq]
  rw [hoff, hsh]
  refine ⟨?_, ?_, ?_, ?_, ?_, ?_⟩
  · by_cases h : v % 4096 = 0 <;> simp [h]
  · intro h
    simp [h]
  · by_cases h : v % 4096 = 0 <;> simp [h]
  · intro h
    simp [h]
  · intro hv
    exact Nat.mod_eq_of_lt (by omega)
  · intro hv
    exact Nat.mod_eq_of_lt (by omega)

/-- Witness for C8: an aligned physical address in the high range
(2^55, above 2^52), an aligned virtual address 8192, and the shift-left
direction on the page number 8192. -/
theorem C8_alignment_conversions_witness :
    (2 ^ 55 : Nat) % 4096 = 0 ∧
    physPageNum_from_physAddr (2 ^ 55) = some (2 ^ 43) ∧
    (8192 : Nat) % 4096 = 0 ∧
    virtPageNum_from_virtAddr 8192 = some 2 ∧
    (8192 : Nat) < 2 ^ 27 ∧
    virtAddr_from_virtPageNum 8192 = 8192 * 4096 := by
  refine ⟨by norm_num, ?_, by norm_num, ?_, by norm_num, ?_⟩
  · have h := (C8_alignment_conversions (2 ^ 55)).2.2.2.1 (by norm_num)
    rw [h]
    norm_num
  · have h := (C8_alignment_conversions 8192).2.1 (by norm_num)
    simpa using h
  · exact (C8_alignment_conversions 8192).2.2.2.2.1 (by norm_num)

/-- C9: the unwrap inside flags() can never panic: for every 64-bit entry
word, from_bits applied to the low byte is some, and it returns exactly the
low byte. -/
theorem C9_flags_total (bits : Nat) :
    PageTableEntry.flags_checked bits = some (PageTableEntry.flags bits) := by
  unfold PageTableEntry.flags_checked PageTableEntry.flags PTEFlags.from_bits
  have hall : PTEFlags.all = 255 := by decide
  rw [hall]
  have h : bits % 256 &&& 255 = bits % 256 := by
    have h8 := and_mask_eq_mod (bits % 256) 8
    norm_num at h8
    omega
  rw [if_pos h]

theorem mem_write_self (s : MState) (p i v : Nat) :
    (mem_write s p i v).mem p i = v := by
  simp [mem_write]

theorem mem_write_ne (s : MState) (p i v q j : Nat) (h : ¬(q = p ∧ j = i)) :
    (mem_write s p i v).mem q j = s.mem q j := by
  simp only [mem_write]
  rw [if_neg h]

theorem frame_alloc_mem (s : MState) (q j : Nat) :
    ((frame_alloc s).2).mem q j = if q = s.next then 0 else s.mem q j := rfl

theorem create_aux_total (idxs : List Nat) :
    ∀ i ppn pt s, idxs.length + i = 3 → i ≤ 2 →
      ((find_pte_create_aux i idxs ppn pt s).1).isSome = true := by
  induction idxs with
  | nil =>
    intro i ppn pt s hlen hi
    simp at hlen
    omega
  | cons idx rest ih =>
    intro i ppn pt s hlen hi
    by_cases h2 : i = 2
    · simp [find_pte_create_aux, h2]
    · have hlen2 : rest.length + (i + 1) = 3 := by
        simp at hlen
        omega
      have hi2 : i + 1 ≤ 2 := by omega
      by_cases hv : PageTableEntry.is_valid (s.mem ppn idx) = true
      · simp only [find_pte_create_aux, if_neg h2, if_pos hv]
        exact ih (i + 1) _ _ _ hlen2 hi2
      · simp only [find_pte_create_aux, if_neg h2, if_neg hv]
        exact ih (i + 1) _ _ _ hlen2 hi2

/-- C10: the create walk never fails to return a leaf slot (the doc comment
about returning none when not found describes no reachable outcome), and
consequently the unwrap inside map can only trip on the subsequent validity
assert: whenever map halts, the walk had found the leaf and the leaf was
already valid. -/
theorem C10_create_walk_total (pt : PageTable) (s : MState) (vpn p f : Nat) :
    ((pt.find_pte_create s vpn).1).isSome = true ∧
    (pt.map s vpn p f = none →
      ((pt.find_pte_create s vpn).1.map
        (fun pi => PageTableEntry.is_valid
          (((pt.find_pte_create s vpn).2.2).mem pi.1 pi.2))) = some true) := by
  have htot : ((pt.find_pte_create s vpn).1).isSome = true := by
    unfold PageTable.find_pte_create
    exact create_aux_total (VirtPageNum.indexes vpn) 0 pt.root_ppn pt s
      (by simp [VirtPageNum.indexes]) (by omega)
  refine ⟨htot, ?_⟩
  intro hmap
  unfold PageTable.map at hmap
  rcases hcr : pt.find_pte_create s vpn with ⟨o, ptc, sc⟩
  rw [hcr] at hmap htot
  cases o with
  | none => simp at htot
  | some pi =>
    simp only [Option.map_some']
    by_cases hv : PageTableEntry.is_valid (sc.mem pi.1 pi.2) = true
    · simp [hv]
    · simp [hv] at hmap

/-- Witness for C10: the demo mapping at vpn 0 is already valid, so map
halts and the walk indeed reports a valid leaf. -/
theorem C10_create_walk_total_witness :
    PageTable.map demoPT demoState 0 9 2 = none ∧
    ((PageTable.find_pte_create demoPT demoState 0).1.map
      (fun pi => PageTableEntry.is_valid
        (((PageTable.find_pte_create demoPT demoState 0).2.2).mem pi.1 pi.2)))
      = some true := by
  have hsome : (PageTable.map demoPT demoState 0 9 2).isSome = false := by decide
  have hmap : PageTable.map demoPT demoState 0 9 2 = none := by
    cases hE : PageTable.map demoPT demoState 0 9 2 with
    | none => rfl
    | some x => rw [hE] at hsome; simp at hsome
  exact ⟨hmap, (C10_create_walk_total demoPT demoState 0 9 2).2 hmap⟩

theorem create_eq_of_found (idxs : List Nat) :
    ∀ i ppn pt s p j, find_pte_aux i idxs ppn s = some (p, j) →
      find_pte_create_aux i idxs ppn pt s = (some (p, j), pt, s) := by
  induction idxs with
  | nil =>
    intro i ppn pt s p j h
    simp [find_pte_aux] at h
  | cons idx rest ih =>
    intro i ppn pt s p j h
    by_cases h2 : i = 2
    · simp only [find_pte_aux, if_pos h2] at h
      simp only [find_pte_create_aux, if_pos h2]
      rw [h]
    · simp only [find_pte_aux, if_neg h2] at h
      by_cases hv : PageTableEntry.is_valid (s.mem ppn idx) = true
      · rw [if_pos hv] at h
        simp only [find_pte_create_aux, if_neg h2, if_pos hv]
        exact ih _ _ _ _ _ _ h
      · rw [if_neg hv] at h
        exact absurd h (by simp)

/-- C2: mapping a vpn whose leaf is currently valid halts (none, so nothing
is written); unmap halts both when an intermediate entry on the path is
invalid and when the walk succeeds but the leaf is invalid; a successful
unmap overwrites the leaf with the all-zero empty sentinel. -/
theorem C2_fatal_misuse (pt : PageTable) (s : MState) (vpn : Nat) :
    (∀ p i, pt.find_pte s vpn = some (p, i) →
      PageTableEntry.is_valid (s.mem p i) = true →
      ∀ ppn fl, pt.map s vpn ppn fl = none) ∧
    (pt.find_pte s vpn = none → pt.unmap s vpn = none) ∧
    (∀ p i, pt.find_pte s vpn = some (p, i) →
      PageTableEntry.is_valid (s.mem p i) = false →
      pt.unmap s vpn = none) ∧
    (∀ p i, pt.find_pte s vpn = some (p, i) →
      PageTableEntry.is_valid (s.mem p i) = true →
      pt.unmap s vpn = some (pt, mem_write s p i PageTableEntry.empty) ∧
      (mem_write s p i PageTableEntry.empty).mem p i = PageTableEntry.empty) := by
  refine ⟨?_, ?_, ?_, ?_⟩
  · intro p i hf hv ppn fl
    have hcr : pt.find_pte_create s vpn = (some (p, i), pt, s) := by
      unfold PageTable.find_pte at hf
      unfold PageTable.find_pte_create
      exact create_eq_of_found _ _ _ _ _ _ _ hf
    unfold PageTable.map
    rw [hcr]
    simp [hv]
  · intro hf
    unfold PageTable.unmap
    rw [hf]
  · intro p i hf hv
    unfold PageTable.unmap
    rw [hf]
    simp [hv]
  · intro p i hf hv
    constructor
    · unfold PageTable.unmap
      rw [hf]
      simp [hv]
    · exact mem_write_self s p i PageTableEntry.empty

/-- Witness for C2 on the demo structure: vpn 0 is mapped (double map halts;
unmap succeeds and zeroes the leaf), vpn 1 reaches an invalid leaf, and
vpn 2^18 dies on an invalid intermediate entry. -/
theorem C2_fatal_misuse_witness :
    PageTable.map demoPT demoState 0 9 2 = none ∧
    PageTable.unmap demoPT demoState 262144 = none ∧
    PageTable.unmap demoPT demoState 1 = none ∧
    PageTable.unmap demoPT demoState 0
      = some (demoPT, mem_write demoState 4 0 PageTableEntry.empty) := by
  refine ⟨?_, ?_, ?_, ?_⟩
  · exact (C2_fatal_misuse demoPT demoState 0).1 4 0 (by decide) (by decide) 9 2
  · exact (C2_fatal_misuse demoPT demoState 262144).2.1 (by decide)
  · exact (C2_fatal_misuse demoPT demoState 1).2.2.1 4 1 (by decide) (by decide)
  · exact ((C2_fatal_misuse demoPT demoState 0).2.2.2 4 0 (by decide) (by decide)).1

theorem create_aux_frames (idxs : List Nat) :
    ∀ i ppn pt s, ∃ news,
      ((find_pte_create_aux i idxs ppn pt s).2.1).frames = pt.frames ++ news ∧
      news.length = countAlloc i idxs ppn s ∧
      ((find_pte_create_aux i idxs ppn pt s).2.1).root_ppn = pt.root_ppn := by
  induction idxs with
  | nil =>
    intro i ppn pt s
    exact ⟨[], by simp [find_pte_create_aux], by simp [countAlloc], rfl⟩
  | cons idx rest ih =>
    intro i ppn pt s
    by_cases h2 : i = 2
    · exact ⟨[], by simp [find_pte_create_aux, h2], by simp [countAlloc, h2], by
        simp [find_pte_create_aux, h2]⟩
    · by_cases hv : PageTableEntry.is_valid (s.mem ppn idx) = true
      · obtain ⟨news, hf, hc, hr⟩ := ih (i + 1) (PageTableEntry.ppn (s.mem ppn idx)) pt s
        refine ⟨news, ?_, ?_, ?_⟩
        · simpa [find_pte_create_aux, h2, hv] using hf
        · simpa [countAlloc, h2, hv] using hc
        · simpa [find_pte_create_aux, h2, hv] using hr
      · obtain ⟨news, hf, hc, hr⟩ := ih (i + 1)
          (PageTableEntry.ppn (PageTableEntry.new s.next PTEFlags.V))
          { pt with frames := pt.frames ++ [s.next] }
          (mem_write (frame_alloc s).2 ppn idx (PageTableEntry.new s.next PTEFlags.V))
        refine ⟨s.next :: news, ?_, ?_, ?_⟩
        · simp only [find_pte_create_aux, if_neg h2, if_neg hv, frame_alloc] at hf ⊢
          rw [hf]
          simp
        · simp only [countAlloc, if_neg h2, if_neg hv, frame_alloc] at hc ⊢
          simp only [List.length_cons, hc]
          omega
        · simpa [find_pte_create_aux, h2, hv, frame_alloc] using hr

theorem map_frames (pt : PageTable) (s : MState) (vpn p f : Nat)
    (pt2 : PageTable) (s2 : MState) (h : pt.map s vpn p f = some (pt2, s2)) :
    ∃ news, pt2.frames = pt.frames ++ news ∧
      news.length = countAlloc 0 (VirtPageNum.indexes vpn) pt.root_ppn s := by
  unfold PageTable.map at h
  rcases hcr : pt.find_pte_create s vpn with ⟨o, ptc, sc⟩
  rw [hcr] at h
  cases o with
  | none => simp at h
  | some pi =>
    by_cases hv : PageTableEntry.is_valid (sc.mem pi.1 pi.2) = true
    · simp [hv] at h
    · simp [hv] at h
      obtain ⟨news, hf, hc, -⟩ :=
        create_aux_frames (VirtPageNum.indexes vpn) 0 pt.root_ppn pt s
      unfold PageTable.find_pte_create at hcr
      rw [hcr] at hf
      refine ⟨news, ?_, hc⟩
      rw [← h.1]
      exact hf

theorem unmap_pt_unchanged (pt : PageTable) (s : MState) (vpn : Nat)
    (pt2 : PageTable) (s2 : MState) (h : pt.unmap s vpn = some (pt2, s2)) :
    pt2 = pt := by
  unfold PageTable.unmap at h
  rcases hfp : pt.find_pte s vpn with _ | pi
  · rw [hfp] at h
    simp at h
  · rw [hfp] at h
    by_cases hv : PageTableEntry.is_valid (s.mem pi.1 pi.2) = true
    · simp [hv] at h
      exact h.1.symm
    · simp [hv] at h

theorem runOpsFrom_frames (ops : List PTOp) :
    ∀ (pt : PageTable) (s : MState) (acc : Nat) (r : PageTable × MState × Nat),
      pt.frames.length = acc + 1 →
      runOpsFrom pt s acc ops = some r →
      r.1.frames.length = r.2.2 + 1 := by
  induction ops with
  | nil =>
    intro pt s acc r hlen hrun
    simp [runOpsFrom] at hrun
    rw [← hrun]
    simpa using hlen
  | cons op rest ih =>
    intro pt s acc r hlen hrun
    unfold runOpsFrom at hrun
    rcases hap : applyOp pt s op with _ | ps
    · rw [hap] at hrun
      simp at hrun
    · rw [hap] at hrun
      simp only [] at hrun
      refine ih ps.1 ps.2 (acc + countOp pt s op) r ?_ hrun
      cases op with
      | mapOp vpn pp fl =>
        have hm : pt.map s vpn pp fl = some (ps.1, ps.2) := by
          simpa [applyOp] using hap
        obtain ⟨news, hf, hc⟩ := map_frames pt s vpn pp fl ps.1 ps.2 hm
        rw [hf]
        simp only [List.length_append, hlen, hc, countOp]
        omega
      | unmapOp vpn =>
        have hu : pt.unmap s vpn = some (ps.1, ps.2) := by
          simpa [applyOp] using hap
        have := unmap_pt_unchanged pt s vpn ps.1 ps.2 hu
        rw [this]
        simpa [countOp] using hlen

/-- C3: a fresh table owns exactly the root frame; each successful map
appends exactly one frame per invalid intermediate entry its walk met
(never more, and it only appends); unmap leaves the owned frames untouched;
hence over any trace of map/unmap starting from new(), the owned-frame count
is 1 plus the number of intermediate nodes allocated by the map calls. -/
theorem C3_frame_accounting :
    (∀ s : MState,
      ((PageTable.new s).1).frames = [((PageTable.new s).1).root_ppn]) ∧
    (∀ (pt : PageTable) (s : MState) (vpn p f : Nat) (pt2 : PageTable) (s2 : MState),
      pt.map s vpn p f = some (pt2, s2) →
      pt2.frames.length = pt.frames.length
        + countAlloc 0 (VirtPageNum.indexes vpn) pt.root_ppn s ∧
      pt2.frames.take pt.frames.length = pt.frames) ∧
    (∀ (pt : PageTable) (s : MState) (vpn : Nat) (pt2 : PageTable) (s2 : MState),
      pt.unmap s vpn = some (pt2, s2) → pt2.frames = pt.frames) ∧
    (∀ (s0 : MState) (ops : List PTOp) (r : PageTable × MState × Nat),
      runOps s0 ops = some r → r.1.frames.length = 1 + r.2.2) := by
  refine ⟨?_, ?_, ?_, ?_⟩
  · intro s
    rfl
  · intro pt s vpn p f pt2 s2 h
    obtain ⟨news, hf, hc⟩ := map_frames pt s vpn p f pt2 s2 h
    constructor
    · rw [hf]
      simp [hc]
    · rw [hf]
      simp
  · intro pt s vpn pt2 s2 h
    rw [unmap_pt_unchanged pt s vpn pt2 s2 h]
  · intro s0 ops r hrun
    have := runOpsFrom_frames ops (PageTable.new s0).1 (PageTable.new s0).2 0 r
      (by rfl) hrun
    omega

/-- Witness for C3: a fresh table over the all-zero state; one map on it
allocates exactly two intermediate nodes (ending with three frames), a
following unmap keeps all three, and the trace-level count agrees. -/
theorem C3_frame_accounting_witness :
    ((PageTable.new demoState).1).frames = [10] ∧
    ((PageTable.new initState).1.map (PageTable.new initState).2 0 7 2).map
      (fun o => o.1.frames.length) = some 3 ∧
    (runOps initState [PTOp.mapOp 0 7 2, PTOp.unmapOp 0]).map
      (fun r => r.1.frames.length) = some 3 := by
  refine ⟨C3_frame_accounting.1 demoState, ?_, ?_⟩
  · rcases hE : (PageTable.new initState).1.map (PageTable.new initState).2 0 7 2
      with _ | ⟨pt2, s2⟩
    · have hs : ((PageTable.new initState).1.map
          (PageTable.new initState).2 0 7 2).isSome = true := by decide
      rw [hE] at hs
      simp at hs
    · have h2 := (C3_frame_accounting.2.1 _ _ 0 7 2 pt2 s2 hE).1
      simp only [Option.map_some']
      rw [h2]
      decide
  · rcases hE : runOps initState [PTOp.mapOp 0 7 2, PTOp.unmapOp 0] with _ | r
    · have hs : (runOps initState [PTOp.mapOp 0 7 2, PTOp.unmapOp 0]).isSome
          = true := by decide
      rw [hE] at hs
      simp at hs
    · have h3 := C3_frame_accounting.2.2.2 initState [PTOp.mapOp 0 7 2, PTOp.unmapOp 0] r hE
      have hcnt : r.2.2 = 2 := by
        have : (runOps initState [PTOp.mapOp 0 7 2, PTOp.unmapOp 0]).map
            (fun x => x.2.2) = some 2 := by decide
        rw [hE, Option.map_some'] at this
        simpa using this
      simp [Option.map_some', h3, hcnt]

theorem is_valid_new_valid (q fl : Nat) (hfl : fl % 2 = 1) :
    PageTableEntry.is_valid (PageTableEntry.new q fl) = true := by
  rw [pte_is_valid_iff]
  unfold PageTableEntry.new
  simp only [decide_eq_true_eq]
  rw [Nat.or_mod_two_eq_one]
  exact Or.inr hfl

/-- C1: on a fresh table (new() run over any allocator state whose next few
frame numbers fit in 44 bits), map(v, p, f) succeeds; translate(v) then
returns exactly new(p, f or V), which is valid, carries ppn p and flags
f or V; after unmap(v) the table still resolves v to a present leaf, but
the leaf is the empty sentinel, which is invalid — never the old mapping. -/
theorem C1_map_translate_consistency (m : Nat → Nat → Nat) (r vpn p f : Nat)
    (hp : p < 2 ^ 44) (hf : f < 2 ^ 8) (hr : r + 2 < 2 ^ 44) :
    (((PageTable.new ⟨m, r⟩).1).map (PageTable.new ⟨m, r⟩).2 vpn p f).isSome
      = true ∧
    ((((PageTable.new ⟨m, r⟩).1).map (PageTable.new ⟨m, r⟩).2 vpn p f).bind
      (fun o => o.1.translate o.2 vpn))
      = some (PageTableEntry.new p (f ||| PTEFlags.V)) ∧
    PageTableEntry.is_valid (PageTableEntry.new p (f ||| PTEFlags.V)) = true ∧
    PageTableEntry.ppn (PageTableEntry.new p (f ||| PTEFlags.V)) = p ∧
    PageTableEntry.flags (PageTableEntry.new p (f ||| PTEFlags.V))
      = f ||| PTEFlags.V ∧
    ((((PageTable.new ⟨m, r⟩).1).map (PageTable.new ⟨m, r⟩).2 vpn p f).bind
      (fun o => o.1.unmap o.2 vpn)).isSome = true ∧
    (((((PageTable.new ⟨m, r⟩).1).map (PageTable.new ⟨m, r⟩).2 vpn p f).bind
      (fun o => o.1.unmap o.2 vpn)).bind (fun o => o.1.translate o.2 vpn))
      = some PageTableEntry.empty ∧
    PageTableEntry.is_valid PageTableEntry.empty = false := by
  have ha2 : r + 1 + 1 = r + 2 := rfl
  have hb1 : ¬(r + 1 = r) := by omega
  have hb2 : ¬(r = r + 1) := by omega
  have hb3 : ¬(r + 2 = r) := by omega
  have hb4 : ¬(r = r + 2) := by omega
  have hb5 : ¬(r + 2 = r + 1) := by omega
  have hb6 : ¬(r + 1 = r + 2) := by omega
  have hv0 : PageTableEntry.is_valid 0 = false := by decide
  have hV10 : PTEFlags.V < 2 ^ 10 := by decide
  have he1 : PageTableEntry.is_valid (PageTableEntry.new (r + 1) PTEFlags.V)
      = true := is_valid_new_valid _ _ (by decide)
  have he2 : PageTableEntry.is_valid (PageTableEntry.new (r + 2) PTEFlags.V)
      = true := is_valid_new_valid _ _ (by decide)
  have hppn1 : PageTableEntry.ppn (PageTableEntry.new (r + 1) PTEFlags.V)
      = r + 1 := pte_ppn_new _ _ (by omega) hV10
  have hppn2 : PageTableEntry.ppn (PageTableEntry.new (r + 2) PTEFlags.V)
      = r + 2 := pte_ppn_new _ _ (by omega) hV10
  have hfV : f ||| PTEFlags.V < 2 ^ 8 := Nat.or_lt_two_pow hf (by decide)
  have henew : PageTableEntry.is_valid (PageTableEntry.new p (f ||| PTEFlags.V))
      = true := by
    refine is_valid_new_valid _ _ ?_
    rw [Nat.or_mod_two_eq_one]
    exact Or.inr (by decide)
  have hppnnew : PageTableEntry.ppn (PageTableEntry.new p (f ||| PTEFlags.V))
      = p := pte_ppn_new _ _ hp (lt_trans hfV (by norm_num))
  have hflagsnew : PageTableEntry.flags (PageTableEntry.new p (f ||| PTEFlags.V))
      = f ||| PTEFlags.V := pte_flags_new _ _ hfV
  refine ⟨?_, ?_, henew, hppnnew, hflagsnew, ?_, ?_, by decide⟩
  · simp [PageTable.map, PageTable.new, frame_alloc, PageTable.find_pte_create,
      VirtPageNum.indexes, find_pte_create_aux, mem_write,
      ha2, hb1, hb2, hb3, hb4, hb5, hb6, hv0, he1, he2, hppn1, hppn2, henew]
  · simp [PageTable.map, PageTable.new, frame_alloc, PageTable.find_pte_create,
      VirtPageNum.indexes, find_pte_create_aux, mem_write, PageTable.translate,
      PageTable.find_pte, find_pte_aux,
      ha2, hb1, hb2, hb3, hb4, hb5, hb6, hv0, he1, he2, hppn1, hppn2, henew]
  · simp [PageTable.map, PageTable.new, frame_alloc, PageTable.find_pte_create,
      VirtPageNum.indexes, find_pte_create_aux, mem_write, PageTable.unmap,
      PageTable.find_pte, find_pte_aux,
      ha2, hb1, hb2, hb3, hb4, hb5, hb6, hv0, he1, he2, hppn1, hppn2, henew]
  · simp [PageTable.map, PageTable.new, frame_alloc, PageTable.find_pte_create,
      VirtPageNum.indexes, find_pte_create_aux, mem_write, PageTable.unmap,
      PageTable.translate, PageTable.find_pte, find_pte_aux, PageTableEntry.empty,
      ha2, hb1, hb2, hb3, hb4, hb5, hb6, hv0, he1, he2, hppn1, hppn2, henew]

/-- Witness for C1 over the all-zero initial state at vpn 5, ppn 7, flags
R: the mapped-then-unmapped round trip behaves as proved. -/
theorem C1_map_translate_consistency_witness :
    (7 : Nat) < 2 ^ 44 ∧ (2 : Nat) < 2 ^ 8 ∧ (0 : Nat) + 2 < 2 ^ 44 ∧
    ((((PageTable.new initState).1).map (PageTable.new initState).2 5 7 2).bind
      (fun o => o.1.translate o.2 5))
      = some (PageTableEntry.new 7 (2 ||| PTEFlags.V)) ∧
    (((((PageTable.new initState).1).map (PageTable.new initState).2 5 7 2).bind
      (fun o => o.1.unmap o.2 5)).bind (fun o => o.1.translate o.2 5))
      = some PageTableEntry.empty :=
  ⟨by norm_num, by norm_num, by norm_num,
   (C1_map_translate_consistency (fun _ _ => 0) 0 5 7 2
     (by norm_num) (by norm_num) (by norm_num)).2.1,
   (C1_map_translate_consistency (fun _ _ => 0) 0 5 7 2
     (by norm_num) (by norm_num) (by norm_num)).2.2.2.2.2.2.1⟩

end SV39
